import Mathlib

/-!
Verification of the sisu e-book reader's core logic against its
natural-language specification.  The JavaScript sources are shallowly
embedded: strings are `List Char`, byte buffers are `List Nat`, machine
time is `Nat` milliseconds, and the browser's asynchronous callbacks are
sequentialized into explicit state-passing functions.  Each definition
mirrors one function of the repository (`src/lib/meta-utils.js`,
`src/lib/book-utils.js`, `src/lib/db.js`, `src/hooks/useFileReader.js`,
`src/pages/Reader.jsx`).
-/

namespace Sisu

/-- The string type of the embedding: JavaScript strings as char lists. -/
abbrev Str := List Char

/-- JavaScript whitespace class: the set matched by `\s` and removed by
`String.prototype.trim` (ASCII whitespace, NBSP, BOM, line/paragraph
separators and the Unicode space separators). -/
def isJsSpace (c : Char) : Bool :=
  c = ' ' ∨ c = '\t' ∨ c = '\n' ∨ c = '\r' ∨ c = '\x0b' ∨ c = '\x0c' ∨
  c = ' ' ∨ c = ' ' ∨ (' ' ≤ c ∧ c ≤ ' ') ∨
  c = ' ' ∨ c = ' ' ∨ c = ' ' ∨ c = ' ' ∨
  c = '　' ∨ c = '﻿'

/-- JavaScript line terminators (the characters `.` does not match). -/
def isLineTerm (c : Char) : Bool :=
  c = '\n' ∨ c = '\r' ∨ c = ' ' ∨ c = ' '

/-- Embedding of `String.prototype.trim`. -/
def jsTrim (s : Str) : Str :=
  ((s.dropWhile isJsSpace).reverse.dropWhile isJsSpace).reverse

/-- ASCII letter test (`[A-Za-z]`). -/
def isAsciiLetter (c : Char) : Bool :=
  ('A' ≤ c ∧ c ≤ 'Z') ∨ ('a' ≤ c ∧ c ≤ 'z')

/-- ASCII digit test (`[0-9]`). -/
def isAsciiDigit (c : Char) : Bool := '0' ≤ c ∧ c ≤ '9'

/-- ASCII alphanumeric test (`[a-zA-Z0-9]`). -/
def isAsciiAlnum (c : Char) : Bool := isAsciiLetter c ∨ isAsciiDigit c

/-- Replacement of every maximal run of CR/LF characters by one space:
`out.replace(/[\r\n]+/g, ' ')` in `cleanMetaString`.  The flag records
whether the scanner is inside a run whose space was already emitted. -/
def crlfAux (inRun : Bool) : Str → Str
  | [] => []
  | c :: rest =>
    if c = '\r' ∨ c = '\n' then
      if inRun then crlfAux true rest else ' ' :: crlfAux true rest
    else c :: crlfAux false rest

/-- CR/LF run replacement, starting outside a run. -/
def crlfRunsToSpace (s : Str) : Str := crlfAux false s

/-- Replacement of every maximal run of underscores by one space:
`out.replace(/[_]+/g, ' ')`. -/
def underscoreAux (inRun : Bool) : Str → Str
  | [] => []
  | c :: rest =>
    if c = '_' then
      if inRun then underscoreAux true rest else ' ' :: underscoreAux true rest
    else c :: underscoreAux false rest

/-- Underscore run replacement, starting outside a run. -/
def underscoreRunsToSpace (s : Str) : Str := underscoreAux false s

/-- Replacement of every maximal run of two or more whitespace characters
by one space: `out.replace(/\s{2,}/g, ' ')`.  A single whitespace
character is kept as-is, so the scanner peeks one character ahead before
entering a run. -/
def cmsAux (inRun : Bool) : Str → Str
  | [] => []
  | c :: rest =>
    if isJsSpace c then
      if inRun then cmsAux true rest
      else
        match rest with
        | [] => [c]
        | d :: _ => if isJsSpace d then ' ' :: cmsAux true rest else c :: cmsAux false rest
    else c :: cmsAux false rest

/-- Multi-whitespace run replacement, starting outside a run. -/
def collapseMultiSpace (s : Str) : Str := cmsAux false s

/-- The whitespace/underscore normalization stages of `cleanMetaString`
that run before RFC2047 decoding: strip NUL characters, trim, collapse
CR/LF runs, underscore runs and multi-space runs, trim again. -/
def preClean (s : Str) : Str :=
  jsTrim (collapseMultiSpace (underscoreRunsToSpace (crlfRunsToSpace (jsTrim (s.filter (fun c => c ≠ '\u0000'))))))

/-- Hex digit test for Q-encoding escapes (`[A-Fa-f0-9]`). -/
def isHexDigit (c : Char) : Bool :=
  isAsciiDigit c ∨ ('A' ≤ c ∧ c ≤ 'F') ∨ ('a' ≤ c ∧ c ≤ 'f')

/-- Numeric value of a hex digit. -/
def hexVal (c : Char) : Nat :=
  if isAsciiDigit c then c.toNat - '0'.toNat
  else if 'A' ≤ c ∧ c ≤ 'F' then c.toNat - 'A'.toNat + 10
  else c.toNat - 'a'.toNat + 10

/-- Embedding of `encoded.replace(/=([A-Fa-f0-9]{2})/g, ...)`: decode each
`=XX` hex escape into the character with that code, scanning left to
right. -/
def hexUnescape : Str → Str
  | '=' :: h1 :: h2 :: rest =>
    if isHexDigit h1 ∧ isHexDigit h2 then
      Char.ofNat (16 * hexVal h1 + hexVal h2) :: hexUnescape rest
    else '=' :: hexUnescape (h1 :: h2 :: rest)
  | c :: rest => c :: hexUnescape rest
  | [] => []

/-- Q-encoding decoding in `decodeRFC2047`: underscores become spaces,
then `=XX` escapes are decoded. -/
def qDecode (payload : Str) : Str :=
  hexUnescape (payload.map (fun c => if c = '_' then ' ' else c))

/-- Value of a base64 alphabet character, `none` outside the alphabet. -/
def b64Val (c : Char) : Option Nat :=
  if 'A' ≤ c ∧ c ≤ 'Z' then some (c.toNat - 'A'.toNat)
  else if 'a' ≤ c ∧ c ≤ 'z' then some (c.toNat - 'a'.toNat + 26)
  else if '0' ≤ c ∧ c ≤ '9' then some (c.toNat - '0'.toNat + 52)
  else if c = '+' then some 62
  else if c = '/' then some 63
  else none

/-- Base64 group decoding (input already stripped of padding). -/
def b64Groups : Str → Option (List Nat)
  | [] => some []
  | [a] => do let _ ← b64Val a; none
  | [a, b] => do
    let va ← b64Val a; let vb ← b64Val b
    pure [va * 4 + vb / 16]
  | [a, b, c] => do
    let va ← b64Val a; let vb ← b64Val b; let vc ← b64Val c
    pure [va * 4 + vb / 16, (vb % 16) * 16 + vc / 4]
  | a :: b :: c :: d :: rest => do
    let va ← b64Val a; let vb ← b64Val b; let vc ← b64Val c; let vd ← b64Val d
    let tail ← b64Groups rest
    pure ([va * 4 + vb / 16, (vb % 16) * 16 + vc / 4, (vc % 4) * 64 + vd] ++ tail)

/-- Embedding of the browser's `atob` (forgiving base64 decode): the input
(whitespace already removed by the caller) may end in one or two `=`
padding characters when its length is a multiple of four; a remainder of
one is an error, as is any character outside the base64 alphabet. -/
def atob (s : Str) : Option (List Nat) :=
  let s' :=
    if s.length % 4 = 0 then
      if s.reverse.take 2 = ['=', '='] then s.take (s.length - 2)
      else if s.reverse.take 1 = ['='] then s.take (s.length - 1)
      else s
    else s
  if s'.length % 4 = 1 then none else b64Groups s'

/-- The Unicode replacement character emitted for invalid UTF-8. -/
def fffd : Char := '\ufffd'

/-- One step of the WHATWG UTF-8 decoder: decode the code point starting
with byte `b` (continuation bytes taken from `rest`), returning the
decoded character and the not-yet-consumed suffix.  On malformed input it
returns U+FFFD and leaves the offending byte to be reprocessed, per the
standard. -/
def utf8Step (b : Nat) (rest : List Nat) : Char × List Nat :=
  if b ≤ 0x7f then (Char.ofNat b, rest)
  else if 0xc2 ≤ b ∧ b ≤ 0xdf then
    match rest with
    | [] => (fffd, [])
    | b2 :: rest2 =>
      if 0x80 ≤ b2 ∧ b2 ≤ 0xbf then (Char.ofNat ((b - 0xc0) * 64 + (b2 - 0x80)), rest2)
      else (fffd, b2 :: rest2)
  else if 0xe0 ≤ b ∧ b ≤ 0xef then
    match rest with
    | [] => (fffd, [])
    | b2 :: rest2 =>
      if (if b = 0xe0 then 0xa0 else 0x80) ≤ b2 ∧ b2 ≤ (if b = 0xed then 0x9f else 0xbf) then
        match rest2 with
        | [] => (fffd, [])
        | b3 :: rest3 =>
          if 0x80 ≤ b3 ∧ b3 ≤ 0xbf then
            (Char.ofNat ((b - 0xe0) * 4096 + (b2 - 0x80) * 64 + (b3 - 0x80)), rest3)
          else (fffd, b3 :: rest3)
      else (fffd, b2 :: rest2)
  else if 0xf0 ≤ b ∧ b ≤ 0xf4 then
    match rest with
    | [] => (fffd, [])
    | b2 :: rest2 =>
      if (if b = 0xf0 then 0x90 else 0x80) ≤ b2 ∧ b2 ≤ (if b = 0xf4 then 0x8f else 0xbf) then
        match rest2 with
        | [] => (fffd, [])
        | b3 :: rest3 =>
          if 0x80 ≤ b3 ∧ b3 ≤ 0xbf then
            match rest3 with
            | [] => (fffd, [])
            | b4 :: rest4 =>
              if 0x80 ≤ b4 ∧ b4 ≤ 0xbf then
                (Char.ofNat ((b - 0xf0) * 262144 + (b2 - 0x80) * 4096 + (b3 - 0x80) * 64 + (b4 - 0x80)), rest4)
              else (fffd, b4 :: rest4)
          else (fffd, b3 :: rest3)
      else (fffd, b2 :: rest2)
  else (fffd, rest)

/-- Embedding of `TextDecoder('utf-8').decode`, fuelled by the input
length: each step consumes at least the leading byte, so the input length
is enough fuel to decode everything. -/
def utf8Go : Nat → List Nat → List Char
  | 0, _ => []
  | _, [] => []
  | fuel + 1, b :: rest => (utf8Step b rest).1 :: utf8Go fuel (utf8Step b rest).2

/-- The WHATWG UTF-8 decoder with U+FFFD replacement on malformed input. -/
def utf8Decode (bytes : List Nat) : List Char := utf8Go bytes.length bytes

/-- Attempt to match the regex `=\?([^?]+)\?([BQ])\?([^?]+)\?=` (with the
`i` flag) at the start of the string, returning the charset, encoding
character and payload capture groups. -/
def rfc2047At : Str → Option (Str × Char × Str)
  | '=' :: '?' :: rest =>
    let charset := rest.takeWhile (fun c => c ≠ '?')
    if charset.isEmpty then none
    else
      match rest.drop charset.length with
      | '?' :: e :: '?' :: rest2 =>
        if e = 'B' ∨ e = 'Q' ∨ e = 'b' ∨ e = 'q' then
          let payload := rest2.takeWhile (fun c => c ≠ '?')
          if payload.isEmpty then none
          else
            match rest2.drop payload.length with
            | '?' :: '=' :: _ => some (charset, e, payload)
            | _ => none
        else none
      | _ => none
  | _ => none

/-- Leftmost match of the RFC2047 encoded-word regex: try each start
position from the left, as the JavaScript regex engine does. -/
def rfc2047Scan : Str → Option (Str × Char × Str)
  | [] => none
  | c :: rest =>
    match rfc2047At (c :: rest) with
    | some r => some r
    | none => rfc2047Scan rest

/-- The browser's `new TextDecoder(charset).decode(bytes)` is an external
collaborator supporting the whole WHATWG encoding registry.  It is
modelled as a parameter: a function from the declared charset label and
the decoded bytes to `some` decoded string, or `none` when the
`TextDecoder` constructor throws on that label.  General theorems about
`cleanMetaString` quantify over every such decoder model. -/
abbrev TextDecoderModel := Str → List Nat → Option Str

/-- Recognizer for the WHATWG labels of the UTF-8 encoding (matched after
ASCII lowercasing and trimming, as the standard prescribes). -/
def textDecoderIsUtf8 (charset : Str) : Bool :=
  let l := (jsTrim charset).map Char.toLower
  l = "unicode-1-1-utf-8".toList ∨ l = "unicode11utf8".toList ∨ l = "unicode20utf8".toList ∨
  l = "utf-8".toList ∨ l = "utf8".toList ∨ l = "x-unicode20utf8".toList

/-- The concrete decoder instance used to evaluate the claims whose
inputs declare a UTF-8 charset: UTF-8 labels decode with the WHATWG UTF-8
decoder, and every other label is left unspecified (`none`).  Concrete
evaluations only ever use it on UTF-8-labelled inputs, where it agrees
with any browser; theorems that must hold for arbitrary charsets take the
decoder as a parameter instead of fixing this instance. -/
def utf8Dec : TextDecoderModel :=
  fun charset bytes => if textDecoderIsUtf8 charset then some (utf8Decode bytes) else none

/-- Embedding of `decodeRFC2047` from `src/lib/meta-utils.js`,
parametric in the external `TextDecoder`: find the first encoded-word
`=?charset?{B|Q}?payload?=`; if none, return the string unchanged.  For B
encoding, base64-decode the whitespace-stripped payload and decode the
bytes with the declared charset, returning the original string if either
step throws; for Q encoding, replace `_` with space and decode `=XX`
escapes.  Note the JavaScript code returns only the decoded payload,
discarding any text surrounding the match. -/
def decodeRFC2047With (dec : TextDecoderModel) (str : Str) : Str :=
  match rfc2047Scan str with
  | none => str
  | some (charset, e, payload) =>
    if e = 'B' ∨ e = 'b' then
      match atob (payload.filter (fun c => ¬ isJsSpace c)) with
      | none => str
      | some bytes =>
        match dec charset bytes with
        | some out => out
        | none => str
    else qDecode payload

/-- The decoder applied with the UTF-8 instance, for concrete
evaluation. -/
def decodeRFC2047 (str : Str) : Str := decodeRFC2047With utf8Dec str

/-- Split on the last `.` of a string: returns the part before the last
dot and the part after it, or `none` when there is no dot. -/
def splitAtLastDot (cs : Str) : Option (Str × Str) :=
  let revSuffix := cs.reverse.takeWhile (fun c => c ≠ '.')
  if revSuffix.length = cs.length then none
  else some ((cs.reverse.drop (revSuffix.length + 1)).reverse, revSuffix.reverse)

/-- Slash test for one path separator: `[\\/]`. -/
def isSlash (c : Char) : Bool := c = '/' ∨ c = '\\'

/-- Test that some path separator is followed by a nonempty run of
non-line-terminator characters reaching the end of the string (the
`[\\/].+` part of the path regex, `.` not matching line terminators). -/
def slashThenDotPlus : Str → Bool
  | [] => false
  | c :: rest =>
    (isSlash c ∧ ¬ rest.isEmpty ∧ rest.all (fun d => ¬ isLineTerm d)) ∨ slashThenDotPlus rest

/-- Embedding of the test `/[\\/].+\.[a-zA-Z0-9]{1,6}$/.test(out)`: the
string ends in a dot followed by one to six alphanumerics, and some
earlier path separator is followed by at least one non-line-terminator
character before that dot. -/
def pathRegexTest (cs : Str) : Bool :=
  match splitAtLastDot cs with
  | none => false
  | some (front, ext) =>
    ¬ ext.isEmpty ∧ ext.length ≤ 6 ∧ ext.all isAsciiAlnum ∧ slashThenDotPlus front

/-- Split on path separators: `out.split(/[\\/]/)`. -/
def splitSlashes : Str → List Str
  | [] => [[]]
  | c :: rest =>
    if isSlash c then [] :: splitSlashes rest
    else
      match splitSlashes rest with
      | part :: parts => (c :: part) :: parts
      | [] => [[c]]

/-- Embedding of `name.replace(/\.[^.]+$/, '')`: strip a trailing
extension (the last dot and everything after it, provided that suffix is
nonempty). -/
def stripLastExt (name : Str) : Str :=
  match splitAtLastDot name with
  | some (front, ext) => if ext.isEmpty then name else front
  | none => name

/-- The basename-extraction branch of `cleanMetaString`: take the last
path segment and strip its extension. -/
def pathExtract (out : Str) : Str :=
  stripLastExt ((splitSlashes out).getLastD [])

/-- Test whether the string starts with the literal separator `" - "`. -/
def sepStart (s : Str) : Bool :=
  s.take 3 = [' ', '-', ' ']

/-- Split on the literal separator `" - "`, scanning left to right with
non-overlapping matches, as `out.split(' - ')` does.  Fuelled: each step
consumes at least one character, so the string length is enough fuel. -/
def splitDashFuel : Nat → Str → Str → List Str
  | 0, s, acc => [acc.reverse ++ s]
  | fuel + 1, s, acc =>
    match s with
    | [] => [acc.reverse]
    | c :: rest =>
      if sepStart (c :: rest) then acc.reverse :: splitDashFuel fuel (rest.drop 2) []
      else splitDashFuel fuel rest (c :: acc)

/-- The separator split of a whole string. -/
def splitDash (s : Str) : List Str := splitDashFuel s.length s []

/-- Case-insensitive prefix test on char lists. -/
def leadsWith : Str → Str → Bool
  | [], _ => true
  | _ :: _, [] => false
  | n :: ns, h :: hs => n = h ∧ leadsWith ns hs

/-- Case-insensitive substring test used for the vendor-tag regex. -/
def hasSubCI (needle : Str) (hay : Str) : Bool :=
  let rec go : Str → Bool
    | [] => needle.isEmpty
    | c :: rest => leadsWith needle (c :: rest) ∨ go rest
  go (hay.map Char.toLower)

/-- The vendor/generator-tool name test:
`/(Adobe|Acrobat|ebook|Kindle|EPUB|PDF|Generator|Calibre)/i.test(tail)`. -/
def vendorTagTest (tail : Str) : Bool :=
  hasSubCI "adobe".toList tail ∨ hasSubCI "acrobat".toList tail ∨
  hasSubCI "ebook".toList tail ∨ hasSubCI "kindle".toList tail ∨
  hasSubCI "epub".toList tail ∨ hasSubCI "pdf".toList tail ∨
  hasSubCI "generator".toList tail ∨ hasSubCI "calibre".toList tail

/-- The trailing generator/vendor-tag removal stage of `cleanMetaString`:
split on `" - "`; when there are several segments and the joined tail
matches the vendor regex, keep only the first segment. -/
def dashVendorStage (out : Str) : Str :=
  match splitDash out with
  | front :: second :: more =>
    if vendorTagTest (List.intercalate " - ".toList (second :: more)) then front else out
  | _ => out

/-- The character class kept by the final sanity check of
`cleanMetaString`: `[A-Za-z0-9\s,.'-]`. -/
def isSafeChar (c : Char) : Bool :=
  isAsciiAlnum c ∨ isJsSpace c ∨ c = ',' ∨ c = '.' ∨ c = '\'' ∨ c = '-'

/-- Case-insensitive equality with the word `untitled`
(`/^untitled$/i.test(out)`). -/
def isUntitled (out : Str) : Bool :=
  out.map Char.toLower = "untitled".toList

/-- Embedding of `cleanMetaString(s, fallback = '')` from
`src/lib/meta-utils.js`, parametric in the `TextDecoder` model.  A
missing/empty input returns the fallback; otherwise the string is
whitespace-normalized, RFC2047-decoded, stripped of a path prefix and
extension when it looks like a file path, stripped of a trailing vendor
tag, and finally replaced by the fallback (or itself when the fallback is
empty) if fewer than two safe characters remain or it equals
`untitled`. -/
def cleanMetaStringWith (dec : TextDecoderModel) (s : Str) (fallback : Str) : Str :=
  if s.isEmpty then fallback
  else
    let out0 := preClean s
    let out1 := decodeRFC2047With dec out0
    let out2 := if pathRegexTest out1 then pathExtract out1 else out1
    let out3 := dashVendorStage out2
    let stripped := out3.filter isSafeChar
    if stripped.length < 2 ∨ isUntitled out3 then
      (if fallback.isEmpty then out3 else fallback)
    else out3

/-- The cleaner applied with the UTF-8 decoder instance, for concrete
evaluation. -/
def cleanMetaString (s : Str) (fallback : Str) : Str :=
  cleanMetaStringWith utf8Dec s fallback

/-- Word-character test for the `\b` boundaries of `\band\b`. -/
def isWordChar (c : Char) : Bool := isAsciiAlnum c ∨ c = '_'

/-- Left word-boundary test for `\band\b`: true at the string start or
after a non-word character. -/
def leftBoundary : Option Char → Bool
  | none => true
  | some p => ¬ isWordChar p

/-- Right word-boundary test for `\band\b`: true at the string end or
before a non-word character. -/
def rightBoundary : Str → Bool
  | [] => true
  | d :: _ => ¬ isWordChar d

/-- Split on `/;|\band\b|\n/`: split points are `;`, newline, or the word
`and` delimited by word boundaries.  `prev` carries the previous character
for the left boundary test.  The scan is fuelled (each step consumes at
least one character, so the string length is enough fuel). -/
def splitAuthFuel : Nat → Str → Option Char → Str → List Str
  | 0, _, _, acc => [acc.reverse]
  | fuel + 1, s, prev, acc =>
    match s with
    | [] => [acc.reverse]
    | ';' :: rest => acc.reverse :: splitAuthFuel fuel rest (some ';') []
    | '\n' :: rest => acc.reverse :: splitAuthFuel fuel rest (some '\n') []
    | 'a' :: 'n' :: 'd' :: rest =>
      if leftBoundary prev ∧ rightBoundary rest then
        acc.reverse :: splitAuthFuel fuel rest (some 'd') []
      else splitAuthFuel fuel ('n' :: 'd' :: rest) (some 'a') ('a' :: acc)
    | c :: rest => splitAuthFuel fuel rest (some c) (c :: acc)

/-- The author-list split `s.split(/;|\band\b|\n/)`. -/
def splitAuthGo (s : Str) (prev : Option Char) (acc : Str) : List Str :=
  splitAuthFuel s.length s prev acc

/-- Split a string on every comma (`part.split(',')`). -/
def splitCommaGo : Str → Str → List Str
  | ',' :: rest, acc => acc.reverse :: splitCommaGo rest []
  | c :: rest, acc => splitCommaGo rest (c :: acc)
  | [], acc => [acc.reverse]

/-- The alphabetic-segment test `/^[A-Za-z\- ]+$/`. -/
def alphaSegTest (seg : Str) : Bool :=
  ¬ seg.isEmpty ∧ seg.all (fun c => isAsciiLetter c ∨ c = '-' ∨ c = ' ')

/-- Normalization of one author name in `normalizeAuthor`: a name split by
commas into exactly two alphabetic segments is treated as `Last, First`
and swapped. -/
def normalizeAuthorPart (part : Str) : Str :=
  match (splitCommaGo part []).map jsTrim |>.filter (fun p => ¬ p.isEmpty) with
  | [p0, p1] =>
    if alphaSegTest p0 ∧ alphaSegTest p1 then jsTrim (p1 ++ ' ' :: p0) else part
  | _ => part

/-- Embedding of `normalizeAuthor` from `src/lib/meta-utils.js`. -/
def normalizeAuthor (raw : Str) : Str :=
  if raw.isEmpty then raw
  else
    let s := jsTrim raw
    if s.isEmpty then []
    else
      let parts := (splitAuthGo s none []).map jsTrim |>.filter (fun p => ¬ p.isEmpty)
      List.intercalate ", ".toList (parts.map normalizeAuthorPart)

/-- The characters after the last dot of a string, or the whole string
when it has no dot: `file.name.split('.').pop()`. -/
def lastDotSegment (name : Str) : Str :=
  match splitAtLastDot name with
  | some (_, ext) => ext
  | none => name

/-- Embedding of `detectFormat` from `src/lib/book-utils.js`: classify a
file name by its lowercased final extension.  `none` models the
JavaScript `null` return for unrecognized extensions. -/
def detectFormat (name : Str) : Option Str :=
  let ext := (lastDotSegment name).map Char.toLower
  if ext = "epub".toList then some "epub".toList
  else if ext = "mobi".toList then some "epub".toList
  else if ext = "azw".toList ∨ ext = "azw3".toList then some "epub".toList
  else if ext = "pdf".toList then some "pdf".toList
  else if ext = "txt".toList ∨ ext = "text".toList then some "txt".toList
  else if ext = "cbz".toList ∨ ext = "cbr".toList then some "comic".toList
  else none

/-- 32-bit right rotation on `Nat` values below `2 ^ 32`. -/
def rotr32 (n x : Nat) : Nat := x / 2 ^ n + x % 2 ^ n * 2 ^ (32 - n)

/-- 32-bit logical right shift. -/
def shr32 (n x : Nat) : Nat := x / 2 ^ n

/-- SHA-256 big sigma 0. -/
def bsig0 (x : Nat) : Nat := rotr32 2 x ^^^ rotr32 13 x ^^^ rotr32 22 x

/-- SHA-256 big sigma 1. -/
def bsig1 (x : Nat) : Nat := rotr32 6 x ^^^ rotr32 11 x ^^^ rotr32 25 x

/-- SHA-256 small sigma 0. -/
def ssig0 (x : Nat) : Nat := rotr32 7 x ^^^ rotr32 18 x ^^^ shr32 3 x

/-- SHA-256 small sigma 1. -/
def ssig1 (x : Nat) : Nat := rotr32 17 x ^^^ rotr32 19 x ^^^ shr32 10 x

/-- SHA-256 choice function. -/
def shaCh (x y z : Nat) : Nat := x &&& y ^^^ (x ^^^ 4294967295) &&& z

/-- SHA-256 majority function. -/
def shaMaj (x y z : Nat) : Nat := x &&& y ^^^ x &&& z ^^^ y &&& z

/-- The SHA-256 round constants. -/
def shaK : List Nat :=
  [1116352408, 1899447441, 3049323471, 3921009573, 961987163,
    1508970993, 2453635748, 2870763221, 3624381080, 310598401,
    607225278, 1426881987, 1925078388, 2162078206, 2614888103,
    3248222580, 3835390401, 4022224774, 264347078, 604807628,
    770255983, 1249150122, 1555081692, 1996064986, 2554220882,
    2821834349, 2952996808, 3210313671, 3336571891, 3584528711,
    113926993, 338241895, 666307205, 773529912, 1294757372,
    1396182291, 1695183700, 1986661051, 2177026350, 2456956037,
    2730485921, 2820302411, 3259730800, 3345764771, 3516065817,
    3600352804, 4094571909, 275423344, 430227734, 506948616,
    659060556, 883997877, 958139571, 1322822218, 1537002063,
    1747873779, 1955562222, 2024104815, 2227730452, 2361852424,
    2428436474, 2756734187, 3204031479, 3329325298]

/-- The SHA-256 initial hash values. -/
def shaH0 : List Nat :=
  [1779033703, 3144134277, 1013904242,
    2773480762, 1359893119, 2600822924,
    528734635, 1541459225]

/-- Big-endian 8-byte encoding of a number. -/
def be64 (n : Nat) : List Nat :=
  (List.range 8).map (fun i => n / 2 ^ (8 * (7 - i)) % 256)

/-- Big-endian 4-byte encoding of a 32-bit word. -/
def be32 (n : Nat) : List Nat :=
  [n / 16777216 % 256, n / 65536 % 256, n / 256 % 256, n % 256]

/-- SHA-256 message padding: append `0x80`, zero bytes up to 56 mod 64,
then the bit length as 8 big-endian bytes. -/
def shaPad (msg : List Nat) : List Nat :=
  let len := msg.length
  msg ++ 0x80 :: List.replicate ((119 - len % 64) % 64) 0 ++ be64 (len * 8)

/-- The sixteen big-endian 32-bit words of one 64-byte block. -/
def blockWords (block : List Nat) : List Nat :=
  (List.range 16).map (fun i =>
    block.getD (4 * i) 0 * 16777216 + block.getD (4 * i + 1) 0 * 65536 +
    block.getD (4 * i + 2) 0 * 256 + block.getD (4 * i + 3) 0)

/-- Extension of the message schedule by `fuel` additional words. -/
def schedExtend : Nat → List Nat → List Nat
  | 0, w => w
  | fuel + 1, w =>
    let i := w.length
    schedExtend fuel
      (w ++ [(ssig1 (w.getD (i - 2) 0) + w.getD (i - 7) 0 + ssig0 (w.getD (i - 15) 0) + w.getD (i - 16) 0) % 4294967296])

/-- The 64-word message schedule of one block. -/
def shaSchedule (block : List Nat) : List Nat := schedExtend 48 (blockWords block)

/-- The SHA-256 compression function on one block schedule. -/
def shaCompress (hs : List Nat) (w : List Nat) : List Nat :=
  let final := (List.range 64).foldl (fun st t =>
    match st with
    | [a, b, c, d, e, f, g, h] =>
      let t1 := (h + bsig1 e + shaCh e f g + shaK.getD t 0 + w.getD t 0) % 4294967296
      let t2 := (bsig0 a + shaMaj a b c) % 4294967296
      [(t1 + t2) % 4294967296, a, b, c, (d + t1) % 4294967296, e, f, g]
    | other => other) hs
  (hs.zip final).map (fun p => (p.1 + p.2) % 4294967296)

/-- Split a byte list into 64-byte chunks (fuelled; one unit of fuel per
chunk, so the list length is more than enough). -/
def chunks64 : Nat → List Nat → List (List Nat)
  | 0, _ => []
  | _, [] => []
  | fuel + 1, l => l.take 64 :: chunks64 fuel (l.drop 64)

/-- The SHA-256 digest of a byte list, as 32 bytes.  This models the
browser's `crypto.subtle.digest('SHA-256', buffer)`. -/
def sha256 (msg : List Nat) : List Nat :=
  let padded := shaPad msg
  let hFinal := (chunks64 padded.length padded).foldl (fun hs block => shaCompress hs (shaSchedule block)) shaH0
  hFinal.foldr (fun h acc => be32 h ++ acc) []

/-- Lowercase hex digit for a value below 16. -/
def hexDigitChar (n : Nat) : Char :=
  if n < 10 then Char.ofNat ('0'.toNat + n) else Char.ofNat ('a'.toNat + n - 10)

/-- Embedding of `generateFileHash` from `src/lib/book-utils.js`: the
SHA-256 digest of the file bytes, rendered as lowercase two-digit hex per
byte. -/
def generateFileHash (buffer : List Nat) : Str :=
  (sha256 buffer).foldr (fun b acc => hexDigitChar (b / 16) :: hexDigitChar (b % 16) :: acc) []

/-- The Reading Goal singleton of `src/lib/db.js`.  Dates (the
`YYYY-MM-DD` strings of the JavaScript) are modelled as UTC day indices;
`none` models the initial empty-string `lastReadDate`. -/
structure ReadingGoal where
  dailyPages : Nat
  weeklyBooks : Nat
  currentStreak : Nat
  longestStreak : Nat
  lastReadDate : Option Nat
  totalBooksCompleted : Nat
  totalMinutesRead : Nat
deriving DecidableEq, Repr

/-- The default goal created by `getReadingGoal` on first access. -/
def defaultGoal : ReadingGoal :=
  { dailyPages := 20, weeklyBooks := 1, currentStreak := 0, longestStreak := 0,
    lastReadDate := none, totalBooksCompleted := 0, totalMinutesRead := 0 }

/-- Embedding of `updateReadingStats` from `src/lib/db.js`, with the
current date passed explicitly as a day index.  The `pagesRead` argument
of the JavaScript is unused by the function body (the minutes counter
always adds one), so it is dropped. -/
def updateReadingStats (today : Nat) (goal : ReadingGoal) : ReadingGoal :=
  if goal.lastReadDate = some today then
    { goal with totalMinutesRead := goal.totalMinutesRead + 1 }
  else
    let currentStreak :=
      if goal.lastReadDate = some (today - 1) then goal.currentStreak + 1 else 1
    let longestStreak := if currentStreak > goal.longestStreak then currentStreak else goal.longestStreak
    { goal with currentStreak := currentStreak, longestStreak := longestStreak,
                lastReadDate := some today, totalMinutesRead := goal.totalMinutesRead + 1 }

/-- Book status values from the constants module
(`BOOK_STATUS`): `want-to-read`, `reading`, `finished`. -/
inductive BookStatus where
  | wantToRead
  | reading
  | finished
deriving DecidableEq, Repr

/-- The Book record (fields from the constants module's typedef plus the
fields written by `Library.jsx` and `Reader.jsx`).  `filename` appears
because `handleMetaExtracted` compares against it; no ingestion path ever
sets it, which the `none` value models. -/
structure Book where
  id : Str
  title : Str
  author : Str
  format : Str
  coverUrl : Str
  fileSize : Nat
  addedAt : Nat
  status : BookStatus
  progress : Nat
  currentPage : Nat
  totalPages : Nat
  currentCfi : Option Str
  currentPageNumber : Nat
  totalPageNumber : Nat
  lastReadAt : Nat
  filename : Option Str
deriving DecidableEq, Repr

/-- UTC day index of a millisecond timestamp (the date part of
`new Date().toISOString()`). -/
def msToDay (now : Nat) : Nat := now / 86400000

/-- Embedding of `Math.round((page / total) * 100)` on natural inputs.
A zero total (division by zero in JavaScript, yielding a non-finite
percent) is mapped to 0; no claim depends on that corner. -/
def jsRoundPct (page total : Nat) : Nat :=
  if total = 0 then 0 else (200 * page + total) / (2 * total)

/-- The in-memory state acted on by the `Reader.jsx` callbacks: the open
book (`bookRef.current`) and the Reading Goal singleton. -/
structure ReaderState where
  book : Option Book
  goal : ReadingGoal
deriving DecidableEq, Repr

/-- Embedding of the `loadBook` effect in `Reader.jsx` on the book
record: when the book and its file are both found, the status is set to
`reading` unconditionally and `lastReadAt` is refreshed; otherwise the
controller navigates away (`none`). -/
def loadBook (found : Option Book) (fileFound : Bool) (now : Nat) : Option Book :=
  match found, fileFound with
  | some b, true => some { b with status := BookStatus.reading, lastReadAt := now }
  | _, _ => none

/-- Embedding of `handlePdfProgress` from `Reader.jsx`: update page
bookkeeping and percent, then update the reading stats.  It performs no
completion transition and never touches `totalBooksCompleted`. -/
def handlePdfProgress (page total now : Nat) (s : ReaderState) : ReaderState :=
  match s.book with
  | none => s
  | some prev =>
    if prev.currentPage = page then s
    else
      let updated := { prev with
        currentPage := page, totalPages := total,
        currentPageNumber := page, totalPageNumber := total,
        progress := jsRoundPct page total, lastReadAt := now }
      { book := some updated, goal := updateReadingStats (msToDay now) s.goal }

/-- Embedding of `handleEbookProgress` from `Reader.jsx`: update progress
fields; when the reported percent is at least 95 and the book is not
already finished, set the status to `finished` and increment the global
completed-book counter; finally update the reading stats. -/
def handleEbookProgress (progress : Nat) (cfi : Str) (page total now : Nat) (s : ReaderState) : ReaderState :=
  match s.book with
  | none => s
  | some prev =>
    let base := { prev with
      progress := progress, currentCfi := some cfi,
      currentPageNumber := page, totalPageNumber := total, lastReadAt := now }
    if progress ≥ 95 ∧ prev.status ≠ BookStatus.finished then
      { book := some { base with status := BookStatus.finished },
        goal := updateReadingStats (msToDay now)
          { s.goal with totalBooksCompleted := s.goal.totalBooksCompleted + 1 } }
    else
      { book := some base, goal := updateReadingStats (msToDay now) s.goal }

/-- Embedding of `handleTxtProgress` from `Reader.jsx`: like the ebook
handler but with an early return when the percent is unchanged, and no
CFI/page bookkeeping. -/
def handleTxtProgress (progress now : Nat) (s : ReaderState) : ReaderState :=
  match s.book with
  | none => s
  | some prev =>
    if prev.progress = progress then s
    else
      let base := { prev with progress := progress, lastReadAt := now }
      if progress ≥ 95 ∧ prev.status ≠ BookStatus.finished then
        { book := some { base with status := BookStatus.finished },
          goal := updateReadingStats (msToDay now)
            { s.goal with totalBooksCompleted := s.goal.totalBooksCompleted + 1 } }
      else
        { book := some base, goal := updateReadingStats (msToDay now) s.goal }

/-- Title/author pair reported asynchronously by a format reader. -/
structure ExtractedMeta where
  title : Str
  author : Str
deriving DecidableEq, Repr

/-- Embedding of `handleMetaExtracted` from `Reader.jsx`: overwrite the
title when the extracted title is nonempty and the current title is
empty or equal to the book's `filename` field, and the author when the
extracted author is nonempty and the current author is empty.  The
callback reads `bookRef.current` — the currently open book — and carries
no book id or open-generation tag. -/
def handleMetaExtracted (meta : Option ExtractedMeta) (cur : Option Book) : Option Book :=
  match meta, cur with
  | none, _ => cur
  | some _, none => cur
  | some m, some prev =>
    let titleHit : Bool :=
      ¬ m.title.isEmpty ∧ (prev.title.isEmpty ∨ prev.filename = some prev.title)
    let b1 := if titleHit then { prev with title := m.title } else prev
    let authorHit : Bool := ¬ m.author.isEmpty ∧ prev.author.isEmpty
    some (if authorHit then { b1 with author := m.author } else b1)

/-- One progress event delivered to the controller, tagged by the format
reader that produced it. -/
inductive PEvent where
  | pdf (page total now : Nat)
  | ebook (progress : Nat) (cfi : Str) (page total now : Nat)
  | txt (progress now : Nat)
deriving DecidableEq, Repr

/-- Dispatch of one progress event to the matching `Reader.jsx`
handler. -/
def stepEvent (e : PEvent) (s : ReaderState) : ReaderState :=
  match e with
  | .pdf page total now => handlePdfProgress page total now s
  | .ebook progress cfi page total now => handleEbookProgress progress cfi page total now s
  | .txt progress now => handleTxtProgress progress now s

/-- Sequential delivery of a list of progress events. -/
def runEvents (es : List PEvent) (s : ReaderState) : ReaderState :=
  es.foldl (fun s e => stepEvent e s) s

/-- Numeric order of book statuses along the forward direction
`want-to-read → reading → finished`. -/
def statusRank : BookStatus → Nat
  | .wantToRead => 0
  | .reading => 1
  | .finished => 2

/-- Embedding of `scheduleSave`/`saveBook` timing from `Reader.jsx` as a
debounce run: each event at time `t` with book value `b` cancels any
pending timer and schedules a write for `t + 2000`; a pending timer whose
fire time has passed when the next event arrives has already written
`bookRef.current`, which between two events is the book of the event that
scheduled the timer.  The final pending write is emitted as well (either
its timer fires or the unmount flush performs it).  Returns the list of
`(write time, written book)` pairs in order. -/
def debounceGo : List (Nat × Book) → Option (Nat × Book) → List (Nat × Book)
  | [], pending =>
    match pending with
    | some p => [p]
    | none => []
  | (t, b) :: rest, pending =>
    match pending with
    | some (tf, bp) =>
      if tf ≤ t then (tf, bp) :: debounceGo rest (some (t + 2000, b))
      else debounceGo rest (some (t + 2000, b))
    | none => debounceGo rest (some (t + 2000, b))

/-- A debounce run started with no pending timer. -/
def debounceRun (events : List (Nat × Book)) : List (Nat × Book) :=
  debounceGo events none

/-- The filename-derived placeholder title of `readFile` in
`src/hooks/useFileReader.js`:
`file.name.replace(/\.[^.]+$/, '').replace(/[_-]/g, ' ')`. -/
def fnameTitle (filename : Str) : Str :=
  (stripLastExt filename).map (fun c => if c = '_' ∨ c = '-' then ' ' else c)

/-- Embedding of `readFile` from `src/hooks/useFileReader.js` combined
with the book construction of the library's `processFiles`.  The format
readers' metadata probes (epub.js / pdf.js) are external collaborators;
`rawMeta` is the raw title/author pair they report, `none` when the probe
throws.  The cover resolver's output is `cover`.  An unsupported format
throws (`none`).  Note that no `filename` field is ever placed on the
book. -/
def ingest (data : List Nat) (filename : Str) (size now : Nat)
    (rawMeta : Option (Str × Str)) (cover : Str) : Option Book :=
  match detectFormat filename with
  | none => none
  | some fmt =>
    let id := generateFileHash data
    let baseTitle := fnameTitle filename
    let probed :=
      if fmt = "epub".toList ∨ fmt = "pdf".toList then
        match rawMeta with
        | some (rt, ra) =>
          let mt := cleanMetaString rt []
          let ma0 := normalizeAuthor (cleanMetaString ra [])
          let ma := if ma0.isEmpty then "Unknown Author".toList else ma0
          (if mt.isEmpty then baseTitle else mt, ma)
        | none => (baseTitle, "Unknown Author".toList)
      else (baseTitle, "Unknown Author".toList)
    some {
      id := id, title := probed.1, author := probed.2, format := fmt,
      coverUrl := cover, fileSize := size, addedAt := now,
      status := BookStatus.wantToRead, progress := 0,
      currentPage := if fmt = "pdf".toList then 1 else 0, totalPages := 0,
      currentCfi := none, currentPageNumber := 0, totalPageNumber := 0,
      lastReadAt := 0, filename := none }

/-- An action of the reader controller relevant to stale-metadata
analysis: opening a book, or an asynchronous metadata extraction
resolving.  `metaArrive` carries the result of an extraction started for
some earlier open; `Reader.jsx` applies it to whatever book is currently
open. -/
inductive RAction where
  | openIt (b : Book) (fileOk : Bool) (now : Nat)
  | metaArrive (m : ExtractedMeta)
deriving DecidableEq, Repr

/-- Effect of one controller action on the currently open book. -/
def stepAction (a : RAction) (cur : Option Book) : Option Book :=
  match a with
  | .openIt b ok now => loadBook (some b) ok now
  | .metaArrive m => handleMetaExtracted (some m) cur

/-- Sequential run of controller actions. -/
def runActions (as : List RAction) (cur : Option Book) : Option Book :=
  as.foldl (fun c a => stepAction a c) cur

/-- Specification-side streak count: the length of the trailing run of
consecutive calendar days at the end of a date sequence, where entries
equal to the current day are skipped and a predecessor day extends the
run. -/
def backCount (d : Nat) : List Nat → Nat
  | [] => 0
  | e :: rest => if e = d then backCount d rest else if e + 1 = d then 1 + backCount e rest else 0

/-- The trailing-consecutive-run length of a read-date sequence. -/
def trailingStreak (ds : List Nat) : Nat :=
  match ds.reverse with
  | [] => 0
  | d :: rest => 1 + backCount d rest

/-- Sequential application of the streak updater to a date sequence. -/
def runStats (ds : List Nat) (g : ReadingGoal) : ReadingGoal :=
  ds.foldl (fun g d => updateReadingStats d g) g

/-! The claim theorems. -/

/-- C9: cleaning the embedded title `=?utf-8?B?TXkgQm9vaw==?=` yields
`My Book` (B-encoded payload base64-decoded with the declared charset),
and normalizing the author `Doe, Jane` yields `Jane Doe`. -/
theorem metadata_scenario_c9 :
    cleanMetaString "=?utf-8?B?TXkgQm9vaw==?=".toList [] = "My Book".toList ∧
    normalizeAuthor "Doe, Jane".toList = "Jane Doe".toList := by
  constructor
  · decide
  · decide

/-- C10: `detectFormat` depends only on the lowercased final extension of
the file name; `mobi`, `azw` and `azw3` map to the same tag as `epub`;
`cbz` and `cbr` map to the distinct tag `comic`; every unrecognized
extension yields `none` (JavaScript `null`), and no `unsupported` tag
value exists among the results. -/
theorem detectFormat_c10 :
    (∀ n1 n2 : Str,
        (lastDotSegment n1).map Char.toLower = (lastDotSegment n2).map Char.toLower →
        detectFormat n1 = detectFormat n2) ∧
    (∀ n : Str,
        ((lastDotSegment n).map Char.toLower = "mobi".toList → detectFormat n = some "epub".toList) ∧
        ((lastDotSegment n).map Char.toLower = "azw".toList → detectFormat n = some "epub".toList) ∧
        ((lastDotSegment n).map Char.toLower = "azw3".toList → detectFormat n = some "epub".toList) ∧
        ((lastDotSegment n).map Char.toLower = "epub".toList → detectFormat n = some "epub".toList) ∧
        ((lastDotSegment n).map Char.toLower = "cbz".toList → detectFormat n = some "comic".toList) ∧
        ((lastDotSegment n).map Char.toLower = "cbr".toList → detectFormat n = some "comic".toList)) ∧
    (∀ n : Str,
        (lastDotSegment n).map Char.toLower ∉
          ["epub".toList, "mobi".toList, "azw".toList, "azw3".toList, "pdf".toList,
           "txt".toList, "text".toList, "cbz".toList, "cbr".toList] →
        detectFormat n = none) ∧
    (∀ n : Str, ∀ r : Str, detectFormat n = some r →
        r = "epub".toList ∨ r = "pdf".toList ∨ r = "txt".toList ∨ r = "comic".toList) := by
  refine ⟨?_, ?_, ?_, ?_⟩
  · intro n1 n2 h
    simp only [detectFormat]
    rw [h]
  · intro n
    refine ⟨?_, ?_, ?_, ?_, ?_, ?_⟩ <;> intro h <;> simp [detectFormat, h]
  · intro n h
    simp only [List.mem_cons, List.not_mem_nil, or_false] at h
    push_neg at h
    obtain ⟨h1, h2, h3, h4, h5, h6, h7, h8, h9⟩ := h
    simp at h1 h2 h3 h4 h5 h6 h7 h8 h9
    simp [detectFormat, h1, h2, h3, h4, h5, h6, h7, h8, h9]
  · intro n r h
    simp only [detectFormat] at h
    repeat' split at h
    all_goals simp_all

/-- C10 witness: the extension tests are satisfiable; a `.MOBI` file is
routed to the EPUB reader tag. -/
theorem detectFormat_c10_witness :
    ((lastDotSegment "My_Book.MOBI".toList).map Char.toLower = "mobi".toList) ∧
    detectFormat "My_Book.MOBI".toList = some "epub".toList :=
  ⟨by decide, (detectFormat_c10.2.1 "My_Book.MOBI".toList).1 (by decide)⟩

/-- Absence of the three-character separator `" - "` anywhere in a
string. -/
def noSep3 (w : Str) : Prop := ∀ a b : Str, w ≠ a ++ ' ' :: '-' :: ' ' :: b

/-- `sepStart` holds exactly when the string begins with `" - "`. -/
theorem sepStart_iff (s : Str) : sepStart s = true ↔ ∃ b, s = ' ' :: '-' :: ' ' :: b := by
  rcases s with _ | ⟨c1, s⟩
  · simp [sepStart]
  rcases s with _ | ⟨c2, s⟩
  · simp [sepStart]
  rcases s with _ | ⟨c3, s⟩
  · simp [sepStart]
  constructor
  · intro h
    simp [sepStart] at h
    exact ⟨s, by simp [h.1, h.2.1, h.2.2]⟩
  · rintro ⟨b, hb⟩
    simp at hb
    simp [sepStart, hb.1, hb.2.1, hb.2.2.1]

/-- A separator-free tail of a separator-free string. -/
theorem noSep3_tail {c : Char} {w : Str} (h : noSep3 (c :: w)) : noSep3 w := by
  intro a b hw
  exact h (c :: a) b (by simp [hw])

/-- Splitting a separator-free string yields a single part. -/
theorem splitDashFuel_noSep (fuel : Nat) :
    ∀ w acc : Str, w.length ≤ fuel → noSep3 w →
      splitDashFuel fuel w acc = [acc.reverse ++ w] := by
  induction fuel with
  | zero =>
    intro w acc hw _
    have hnil : w = [] := List.eq_nil_of_length_eq_zero (Nat.le_zero.mp hw)
    subst hnil
    simp [splitDashFuel]
  | succ fuel ih =>
    intro w acc hw hns
    rcases w with _ | ⟨c, rest⟩
    · simp [splitDashFuel]
    · have hsep : sepStart (c :: rest) = false := by
        cases hs : sepStart (c :: rest)
        · rfl
        · obtain ⟨b, hb⟩ := (sepStart_iff _).mp hs
          exact absurd hb (hns [] b)
      simp only [splitDashFuel, hsep, Bool.false_eq_true, if_false]
      rw [ih rest (c :: acc) (by simp at hw; omega) (noSep3_tail hns)]
      simp

/-- The first part of a split that produced several parts is the
accumulator followed by a separator-free prefix of the input. -/
theorem splitDashFuel_parts (fuel : Nat) :
    ∀ s acc p rest, s.length ≤ fuel →
      splitDashFuel fuel s acc = p :: rest → rest ≠ [] →
      ∃ w rem, s = w ++ ' ' :: '-' :: ' ' :: rem ∧ p = acc.reverse ++ w ∧ noSep3 w := by
  induction fuel with
  | zero =>
    intro ss acc p rest hs heq hne
    have hnil : ss = [] := List.eq_nil_of_length_eq_zero (Nat.le_zero.mp hs)
    subst hnil
    simp [splitDashFuel] at heq
    exact absurd heq.2 hne
  | succ fuel ih =>
    intro ss acc p rest hs heq hne
    rcases ss with _ | ⟨c, cs⟩
    · simp [splitDashFuel] at heq
      exact absurd heq.2 hne
    · cases hsep : sepStart (c :: cs)
      · simp only [splitDashFuel, hsep, Bool.false_eq_true, if_false] at heq
        obtain ⟨w', rem, hcs, hp, hns⟩ := ih cs (c :: acc) p rest (by simp at hs; omega) heq hne
        refine ⟨c :: w', rem, by simp [hcs], by simpa using hp, ?_⟩
        intro a b hab
        rcases a with _ | ⟨a0, a'⟩
        · simp at hab
          have htrue : sepStart (c :: cs) = true := by
            apply (sepStart_iff _).mpr
            refine ⟨b ++ ' ' :: '-' :: ' ' :: rem, ?_⟩
            rw [hab.1, hcs, hab.2]
            simp
          rw [htrue] at hsep
          exact Bool.noConfusion hsep
        · simp at hab
          exact hns a' b hab.2
      · obtain ⟨b, hb⟩ := (sepStart_iff _).mp hsep
        simp only [splitDashFuel, hsep, if_true] at heq
        injection heq with h1 h2
        refine ⟨[], cs.drop 2, ?_, ?_, ?_⟩
        · obtain ⟨hc, hcs⟩ := List.cons.inj hb
          simp [hc, hcs]
        · simpa using h1.symm
        · intro a b' hab
          rcases a with _ | ⟨a0, a'⟩ <;> simp at hab

/-- The vendor-tag removal stage is idempotent: when it truncates, the
kept first segment contains no `" - "` separator and therefore splits
into a single part. -/
theorem dashVendorStage_idem (x : Str) :
    dashVendorStage (dashVendorStage x) = dashVendorStage x := by
  rcases h : splitDash x with _ | ⟨front, _ | ⟨second, more⟩⟩
  · have hx : dashVendorStage x = x := by simp [dashVendorStage, h]
    rw [hx, hx]
  · have hx : dashVendorStage x = x := by simp [dashVendorStage, h]
    rw [hx, hx]
  · by_cases hv : vendorTagTest (List.intercalate " - ".toList (second :: more)) = true
    · have hx : dashVendorStage x = front := by
        simp only [String.toList] at hv
        simp [dashVendorStage, h, hv]
      obtain ⟨w, rem, _, hp, hns⟩ :=
        splitDashFuel_parts x.length x [] front (second :: more) le_rfl h (by simp)
      have hw : front = w := by simpa using hp
      have hsplit : splitDash front = [front] := by
        rw [splitDash, splitDashFuel_noSep front.length front [] le_rfl (hw ▸ hns)]
        simp
      rw [hx]
      simp [dashVendorStage, hsplit]
    · have hx : dashVendorStage x = x := by
        simp only [String.toList] at hv
        simp [dashVendorStage, h, hv]
      rw [hx, hx]

/-- The shape of `cleanMetaStringWith` with the default empty fallback
on a nonempty input, for any decoder model: normalization stages followed
by the vendor-tag stage (the final length/untitled check returns the same
string either way when the fallback is empty). -/
theorem cleanMetaString_shape (dec : TextDecoderModel) (s : Str) (hs : s ≠ []) :
    cleanMetaStringWith dec s [] =
      dashVendorStage (if pathRegexTest (decodeRFC2047With dec (preClean s)) = true then
        pathExtract (decodeRFC2047With dec (preClean s))
      else decodeRFC2047With dec (preClean s)) := by
  have hse : s.isEmpty = false := by simp [hs]
  simp only [cleanMetaStringWith, hse, Bool.false_eq_true, if_false, List.isEmpty_nil,
    if_true, ite_self]

/-- C4 counterexample: `cleanMetaString` is not idempotent.  On the input
`=?utf-8?Q?=3D=3Futf-8=3FQ=3Fabc=3F=3D?=` the first pass Q-decodes to the
string `=?utf-8?Q?abc?=`, which itself still matches the encoded-word
pattern, so a second pass decodes it again to `abc`. -/
theorem cleanMetaString_not_idempotent_c4 :
    cleanMetaString (cleanMetaString "=?utf-8?Q?=3D=3Futf-8=3FQ=3Fabc=3F=3D?=".toList []) [] ≠
      cleanMetaString "=?utf-8?Q?=3D=3Futf-8=3FQ=3Fabc=3F=3D?=".toList [] := by
  decide

/-- C4 amended: with the default empty fallback, and for every model of
the external `TextDecoder` (hence in particular for a browser supporting
the full WHATWG encoding registry), `cleanMetaString` is idempotent on
every input whose cleaned result is already fully normalized — unchanged
by whitespace/underscore normalization, left unchanged by another
encoded-word decoding pass, and not matching the file-path pattern.  (The
vendor-tag stage needs no such hypothesis: it is idempotent outright.)
In general idempotence fails, per the counterexample. -/
theorem cleanMetaString_idem_cond_c4 (dec : TextDecoderModel) (s : Str)
    (h1 : preClean (cleanMetaStringWith dec s []) = cleanMetaStringWith dec s [])
    (h2 : decodeRFC2047With dec (cleanMetaStringWith dec s []) = cleanMetaStringWith dec s [])
    (h3 : pathRegexTest (cleanMetaStringWith dec s []) = false) :
    cleanMetaStringWith dec (cleanMetaStringWith dec s []) [] = cleanMetaStringWith dec s [] := by
  by_cases hs : s = []
  · subst hs
    rfl
  · by_cases hr : cleanMetaStringWith dec s [] = []
    · rw [hr]
      rfl
    · rw [cleanMetaString_shape dec _ hr, h1, h2, h3]
      simp only [Bool.false_eq_true, if_false]
      rw [cleanMetaString_shape dec s hs]
      exact dashVendorStage_idem _

/-- C4 witness: the conditional idempotence applies, under the UTF-8
decoder instance, to an ordinary already-clean title. -/
theorem cleanMetaString_idem_cond_c4_witness :
    (preClean (cleanMetaStringWith utf8Dec "My Book".toList []) =
      cleanMetaStringWith utf8Dec "My Book".toList []) ∧
    (decodeRFC2047With utf8Dec (cleanMetaStringWith utf8Dec "My Book".toList []) =
      cleanMetaStringWith utf8Dec "My Book".toList []) ∧
    (pathRegexTest (cleanMetaStringWith utf8Dec "My Book".toList []) = false) ∧
    cleanMetaStringWith utf8Dec (cleanMetaStringWith utf8Dec "My Book".toList []) [] =
      cleanMetaStringWith utf8Dec "My Book".toList [] :=
  ⟨by decide, by decide, by decide,
    cleanMetaString_idem_cond_c4 utf8Dec _ (by decide) (by decide) (by decide)⟩

/-- Folding one more date commutes with the fold. -/
theorem runStats_concat (ds : List Nat) (d : Nat) (g : ReadingGoal) :
    runStats (ds ++ [d]) g = updateReadingStats d (runStats ds g) := by
  simp [runStats, List.foldl_append]

/-- The streak updater always leaves `lastReadDate` equal to today. -/
theorem updateReadingStats_lastReadDate (d : Nat) (g : ReadingGoal) :
    (updateReadingStats d g).lastReadDate = some d := by
  by_cases h : g.lastReadDate = some d <;> simp [updateReadingStats, h]

/-- Invariant of the sequential streak fold: the current streak equals
the trailing consecutive-day run, and `lastReadDate` is the last date
folded in. -/
theorem runStats_invariant (ds : List Nat) (h : ds ≠ []) :
    (runStats ds defaultGoal).currentStreak = trailingStreak ds ∧
    (runStats ds defaultGoal).lastReadDate = ds.getLast? := by
  induction ds using List.reverseRecOn with
  | nil => exact absurd rfl h
  | append_singleton ds d ih =>
    rw [runStats_concat]
    refine ⟨?_, by rw [updateReadingStats_lastReadDate, List.getLast?_concat]⟩
    rcases eq_or_ne ds [] with hds | hds
    · subst hds
      simp [runStats, updateReadingStats, defaultGoal, trailingStreak, backCount]
    · obtain ⟨ihs, ihl⟩ := ih hds
      obtain ⟨e, rest, hrev⟩ : ∃ e rest, ds.reverse = e :: rest := by
        rcases hr : ds.reverse with _ | ⟨x, r⟩
        · exact absurd (by simpa using congrArg List.reverse hr) hds
        · exact ⟨x, r, rfl⟩
      have hlast : ds.getLast? = some e := by
        rw [← List.head?_reverse, hrev]
        rfl
      have hts : trailingStreak ds = 1 + backCount e rest := by
        simp [trailingStreak, hrev]
      have hts2 : trailingStreak (ds ++ [d]) = 1 + backCount d (e :: rest) := by
        simp [trailingStreak, hrev]
      have hlr : (runStats ds defaultGoal).lastReadDate = some e := by rw [ihl, hlast]
      by_cases hed : e = d
      · have hstep : (updateReadingStats d (runStats ds defaultGoal)).currentStreak =
            (runStats ds defaultGoal).currentStreak := by
          simp [updateReadingStats, hlr, hed]
        have hbc : backCount d (e :: rest) = backCount d rest := by
          simp [backCount, hed]
        rw [hstep, ihs, hts, hts2, hbc, hed]
      · by_cases hed2 : e + 1 = d
        · have hstep : (updateReadingStats d (runStats ds defaultGoal)).currentStreak =
              (runStats ds defaultGoal).currentStreak + 1 := by
            simp [updateReadingStats, hlr, Option.some.injEq, hed,
              show e = d - 1 from by omega, show ¬ d - 1 = d from by omega]
          have hbc : backCount d (e :: rest) = 1 + backCount e rest := by
            simp [backCount, hed, hed2]
          rw [hstep, ihs, hts, hts2, hbc]
          omega
        · have hstep : (updateReadingStats d (runStats ds defaultGoal)).currentStreak = 1 := by
            simp [updateReadingStats, hlr, Option.some.injEq, hed,
              show ¬ e = d - 1 from by omega]
          have hbc : backCount d (e :: rest) = 0 := by
            simp [backCount, hed, hed2]
          rw [hstep, hts2, hbc]

/-- A same-day invocation of the streak updater only bumps the minutes
counter. -/
theorem updateReadingStats_sameDay (d : Nat) (g : ReadingGoal)
    (hg : g.lastReadDate = some d) :
    updateReadingStats d g = { g with totalMinutesRead := g.totalMinutesRead + 1 } := by
  simp [updateReadingStats, hg]

/-- C5: applied sequentially to a nonempty read-date sequence starting
from the default goal, the streak updater yields a current streak equal
to the length of the trailing run of consecutive calendar days ending at
the last date; and invoking the updater again within the same day leaves
the streak fields unchanged. -/
theorem streak_correct_c5 (ds : List Nat) (h : ds ≠ []) :
    (runStats ds defaultGoal).currentStreak = trailingStreak ds ∧
    ∀ (g : ReadingGoal) (d : Nat),
      (updateReadingStats d (updateReadingStats d g)).currentStreak =
        (updateReadingStats d g).currentStreak ∧
      (updateReadingStats d (updateReadingStats d g)).longestStreak =
        (updateReadingStats d g).longestStreak ∧
      (updateReadingStats d (updateReadingStats d g)).lastReadDate =
        (updateReadingStats d g).lastReadDate := by
  refine ⟨(runStats_invariant ds h).1, ?_⟩
  intro g d
  rw [updateReadingStats_sameDay d (updateReadingStats d g) (updateReadingStats_lastReadDate d g)]
  exact ⟨rfl, rfl, rfl⟩

/-- C5 witness: dates 3,4 then 6,7,8 end in a trailing run of three
consecutive days. -/
theorem streak_correct_c5_witness :
    ([3, 4, 6, 7, 8] : List Nat) ≠ [] ∧
    ((runStats [3, 4, 6, 7, 8] defaultGoal).currentStreak = trailingStreak [3, 4, 6, 7, 8] ∧
     ∀ (g : ReadingGoal) (d : Nat),
      (updateReadingStats d (updateReadingStats d g)).currentStreak =
        (updateReadingStats d g).currentStreak ∧
      (updateReadingStats d (updateReadingStats d g)).longestStreak =
        (updateReadingStats d g).longestStreak ∧
      (updateReadingStats d (updateReadingStats d g)).lastReadDate =
        (updateReadingStats d g).lastReadDate) ∧
    trailingStreak [3, 4, 6, 7, 8] = 3 :=
  ⟨by decide, streak_correct_c5 [3, 4, 6, 7, 8] (by decide), by decide⟩

/-- C8: the ingested Book id is the content hash of the file bytes alone:
whenever ingestion succeeds, the id equals `generateFileHash` of the
bytes, independent of filename, size, timestamp, probed metadata and
cover — so ingesting the same bytes twice yields the same id. -/
theorem ingest_id_deterministic_c8 (data : List Nat) (fn1 fn2 : Str) (s1 s2 n1 n2 : Nat)
    (m1 m2 : Option (Str × Str)) (c1 c2 : Str)
    (h1 : (ingest data fn1 s1 n1 m1 c1).isSome = true)
    (h2 : (ingest data fn2 s2 n2 m2 c2).isSome = true) :
    (ingest data fn1 s1 n1 m1 c1).map Book.id = some (generateFileHash data) ∧
    (ingest data fn2 s2 n2 m2 c2).map Book.id = some (generateFileHash data) := by
  constructor
  · rcases hfd : detectFormat fn1 with _ | f
    · rw [ingest, hfd] at h1
      exact absurd h1 (by simp)
    · simp [ingest, hfd]
  · rcases hfd : detectFormat fn2 with _ | f
    · rw [ingest, hfd] at h2
      exact absurd h2 (by simp)
    · simp [ingest, hfd]

/-- C8 witness: the same three bytes ingested under two different names,
times and metadata outcomes resolve to the same content-derived id. -/
theorem ingest_id_deterministic_c8_witness :
    ((ingest [97, 98, 99] "a.txt".toList 3 0 none []).isSome = true) ∧
    ((ingest [97, 98, 99] "b.epub".toList 5 7 (some ("T".toList, "A".toList)) "c".toList).isSome = true) ∧
    ((ingest [97, 98, 99] "a.txt".toList 3 0 none []).map Book.id =
        some (generateFileHash [97, 98, 99]) ∧
      (ingest [97, 98, 99] "b.epub".toList 5 7 (some ("T".toList, "A".toList)) "c".toList).map Book.id =
        some (generateFileHash [97, 98, 99])) :=
  ⟨rfl, rfl, ingest_id_deterministic_c8 [97, 98, 99] "a.txt".toList "b.epub".toList 3 5 0 7
    none (some ("T".toList, "A".toList)) [] "c".toList rfl rfl⟩

/-- A sample in-memory book for concrete runs (fields not under test are
zeroed; `filename` is absent, as after every ingestion path). -/
def mkBook (id title author fmt : Str) (st : BookStatus) (progress currentPage : Nat) : Book :=
  { id := id, title := title, author := author, format := fmt, coverUrl := [],
    fileSize := 0, addedAt := 0, status := st, progress := progress,
    currentPage := currentPage, totalPages := 0, currentCfi := none,
    currentPageNumber := 0, totalPageNumber := 0, lastReadAt := 0, filename := none }

/-- C6: on a book with no `filename` field (as produced by every
ingestion path), `handleMetaExtracted` overwrites the title only if the
current title is empty (hence only if it is empty or equals any given
placeholder), overwrites the author only if the current author is empty,
and leaves every other Book field unchanged. -/
theorem handleMetaExtracted_policy_c6 (m : ExtractedMeta) (b : Book) (ph : Str)
    (hfn : b.filename = none) :
    ∃ b', handleMetaExtracted (some m) (some b) = some b' ∧
      (b'.title ≠ b.title → b.title = [] ∨ b.title = ph) ∧
      (b'.author ≠ b.author → b.author = []) ∧
      b'.id = b.id ∧ b'.format = b.format ∧ b'.coverUrl = b.coverUrl ∧
      b'.fileSize = b.fileSize ∧ b'.addedAt = b.addedAt ∧ b'.status = b.status ∧
      b'.progress = b.progress ∧ b'.currentPage = b.currentPage ∧
      b'.totalPages = b.totalPages ∧ b'.currentCfi = b.currentCfi ∧
      b'.currentPageNumber = b.currentPageNumber ∧ b'.totalPageNumber = b.totalPageNumber ∧
      b'.lastReadAt = b.lastReadAt ∧ b'.filename = b.filename := by
  by_cases hT : (¬ m.title = [] ∧ (b.title = [] ∨ b.filename = some b.title)) <;>
    by_cases hA : (¬ m.author = [] ∧ b.author = [])
  · refine ⟨{ b with title := m.title, author := m.author },
      by simp [handleMetaExtracted, List.isEmpty_iff, hT, hA], ?_, ?_,
      rfl, rfl, rfl, rfl, rfl, rfl, rfl, rfl, rfl, rfl, rfl, rfl, rfl, rfl⟩
    · intro _
      rcases hT.2 with h | h
      · exact Or.inl h
      · rw [hfn] at h
        exact absurd h (by simp)
    · intro _
      exact hA.2
  · refine ⟨{ b with title := m.title },
      by simp [handleMetaExtracted, List.isEmpty_iff, hT, hA], ?_, ?_,
      rfl, rfl, rfl, rfl, rfl, rfl, rfl, rfl, rfl, rfl, rfl, rfl, rfl, rfl⟩
    · intro _
      rcases hT.2 with h | h
      · exact Or.inl h
      · rw [hfn] at h
        exact absurd h (by simp)
    · intro hne
      exact absurd rfl hne
  · refine ⟨{ b with author := m.author },
      by simp [handleMetaExtracted, List.isEmpty_iff, hT, hA], ?_, ?_,
      rfl, rfl, rfl, rfl, rfl, rfl, rfl, rfl, rfl, rfl, rfl, rfl, rfl, rfl⟩
    · intro hne
      exact absurd rfl hne
    · intro _
      exact hA.2
  · refine ⟨b, by simp [handleMetaExtracted, List.isEmpty_iff, hT, hA], ?_, ?_,
      rfl, rfl, rfl, rfl, rfl, rfl, rfl, rfl, rfl, rfl, rfl, rfl, rfl, rfl⟩
    · intro hne
      exact absurd rfl hne
    · intro hne
      exact absurd rfl hne

/-- C6 witness: a book with empty title and author, and no `filename`
field, receives the extracted metadata and nothing else changes. -/
theorem handleMetaExtracted_policy_c6_witness :
    ((mkBook "i".toList [] [] "pdf".toList BookStatus.reading 0 1).filename = none) ∧
    (∃ b', handleMetaExtracted (some ⟨"Real Title".toList, "Real Author".toList⟩)
        (some (mkBook "i".toList [] [] "pdf".toList BookStatus.reading 0 1)) = some b' ∧
      (b'.title ≠ (mkBook "i".toList [] [] "pdf".toList BookStatus.reading 0 1).title →
        (mkBook "i".toList [] [] "pdf".toList BookStatus.reading 0 1).title = [] ∨
        (mkBook "i".toList [] [] "pdf".toList BookStatus.reading 0 1).title = "ph".toList) ∧
      (b'.author ≠ (mkBook "i".toList [] [] "pdf".toList BookStatus.reading 0 1).author →
        (mkBook "i".toList [] [] "pdf".toList BookStatus.reading 0 1).author = []) ∧
      b'.id = (mkBook "i".toList [] [] "pdf".toList BookStatus.reading 0 1).id ∧
      b'.format = (mkBook "i".toList [] [] "pdf".toList BookStatus.reading 0 1).format ∧
      b'.coverUrl = (mkBook "i".toList [] [] "pdf".toList BookStatus.reading 0 1).coverUrl ∧
      b'.fileSize = (mkBook "i".toList [] [] "pdf".toList BookStatus.reading 0 1).fileSize ∧
      b'.addedAt = (mkBook "i".toList [] [] "pdf".toList BookStatus.reading 0 1).addedAt ∧
      b'.status = (mkBook "i".toList [] [] "pdf".toList BookStatus.reading 0 1).status ∧
      b'.progress = (mkBook "i".toList [] [] "pdf".toList BookStatus.reading 0 1).progress ∧
      b'.currentPage = (mkBook "i".toList [] [] "pdf".toList BookStatus.reading 0 1).currentPage ∧
      b'.totalPages = (mkBook "i".toList [] [] "pdf".toList BookStatus.reading 0 1).totalPages ∧
      b'.currentCfi = (mkBook "i".toList [] [] "pdf".toList BookStatus.reading 0 1).currentCfi ∧
      b'.currentPageNumber = (mkBook "i".toList [] [] "pdf".toList BookStatus.reading 0 1).currentPageNumber ∧
      b'.totalPageNumber = (mkBook "i".toList [] [] "pdf".toList BookStatus.reading 0 1).totalPageNumber ∧
      b'.lastReadAt = (mkBook "i".toList [] [] "pdf".toList BookStatus.reading 0 1).lastReadAt ∧
      b'.filename = (mkBook "i".toList [] [] "pdf".toList BookStatus.reading 0 1).filename) :=
  ⟨rfl, handleMetaExtracted_policy_c6 ⟨"Real Title".toList, "Real Author".toList⟩
    (mkBook "i".toList [] [] "pdf".toList BookStatus.reading 0 1) "ph".toList rfl⟩

/-- Every write emitted by a debounce run with a pending timer at `tf`
happens at or after `tf`, and consecutive writes are at least the
debounce interval apart. -/
theorem debounceGo_gap (es : List (Nat × Book)) :
    ∀ tf bp, es.Pairwise (fun a b => a.1 ≤ b.1) → (∀ e ∈ es, tf ≤ e.1 + 2000) →
      (∀ w ∈ debounceGo es (some (tf, bp)), tf ≤ w.1) ∧
      (debounceGo es (some (tf, bp))).Chain' (fun a b => a.1 + 2000 ≤ b.1) := by
  induction es with
  | nil =>
    intro tf bp _ _
    constructor
    · intro w hw
      simp [debounceGo] at hw
      simp [hw]
    · simp [debounceGo]
  | cons e rest ih =>
    intro tf bp hsort hlb
    obtain ⟨t, b⟩ := e
    obtain ⟨hhead, htail⟩ := List.pairwise_cons.mp hsort
    have hlb' : ∀ x ∈ rest, t + 2000 ≤ x.1 + 2000 := by
      intro x hx
      have := hhead x hx
      omega
    obtain ⟨ihw, ihc⟩ := ih (t + 2000) b htail hlb'
    by_cases htf : tf ≤ t
    · constructor
      · intro w hw
        simp only [debounceGo, if_pos htf] at hw
        rcases List.mem_cons.mp hw with hw | hw
        · simp [hw]
        · have := ihw w hw
          omega
      · simp only [debounceGo, if_pos htf]
        refine List.chain'_cons'.mpr ⟨?_, ihc⟩
        intro y hy
        have hym : y ∈ debounceGo rest (some (t + 2000, b)) := List.mem_of_mem_head? hy
        have := ihw y hym
        simp only
        omega
    · constructor
      · intro w hw
        simp only [debounceGo, if_neg htf] at hw
        have h0 : tf ≤ t + 2000 := hlb (t, b) (by simp)
        have := ihw w hw
        omega
      · simp only [debounceGo, if_neg htf]
        exact ihc

/-- C7: two progress events 200 ms apart produce exactly one persisted
write, at two seconds after the second event and carrying the second
event's book value; and in general, for time-ordered events, consecutive
writes of a debounce run are at least the two-second interval apart. -/
theorem save_debounce_c7 (t1 t2 : Nat) (b1 b2 : Book) (h1 : t1 ≤ t2) (h2 : t2 < t1 + 2000) :
    debounceRun [(t1, b1), (t2, b2)] = [(t2 + 2000, b2)] ∧
    ∀ es : List (Nat × Book), es.Pairwise (fun a b => a.1 ≤ b.1) →
      (debounceRun es).Chain' (fun a b => a.1 + 2000 ≤ b.1) := by
  constructor
  · simp [debounceRun, debounceGo, show ¬ (t1 + 2000 ≤ t2) from by omega]
  · intro es hp
    cases es with
    | nil => simp [debounceRun, debounceGo]
    | cons e rest =>
      obtain ⟨t, b⟩ := e
      obtain ⟨hhead, htail⟩ := List.pairwise_cons.mp hp
      simp only [debounceRun, debounceGo]
      refine (debounceGo_gap rest (t + 2000) b htail ?_).2
      intro x hx
      have := hhead x hx
      omega

/-- C7 witness: events at 0 ms and 200 ms. -/
theorem save_debounce_c7_witness :
    (0 ≤ 200) ∧ (200 < 0 + 2000) ∧
    (debounceRun [(0, mkBook "i".toList [] [] "pdf".toList BookStatus.reading 0 1),
        (200, mkBook "j".toList [] [] "pdf".toList BookStatus.reading 7 2)] =
      [(200 + 2000, mkBook "j".toList [] [] "pdf".toList BookStatus.reading 7 2)] ∧
     ∀ es : List (Nat × Book), es.Pairwise (fun a b => a.1 ≤ b.1) →
      (debounceRun es).Chain' (fun a b => a.1 + 2000 ≤ b.1)) :=
  ⟨by decide, by decide,
    save_debounce_c7 0 200 (mkBook "i".toList [] [] "pdf".toList BookStatus.reading 0 1)
      (mkBook "j".toList [] [] "pdf".toList BookStatus.reading 7 2) (by decide) (by decide)⟩

/-- C3: the code at the failing input.  Book A (id `aaa`) is opened and
a metadata extraction started for it; book B (id `bbb`, empty title) is
opened before the extraction resolves; when A's result arrives,
`handleMetaExtracted` applies it to the currently open book — B's
in-memory record ends up with id `bbb` but A's extracted title.  No book
id or open-generation comparison exists to discard the stale result. -/
theorem staleMeta_applied_c3 :
    (runActions
      [RAction.openIt (mkBook "aaa".toList "Alpha".toList "A. One".toList "epub".toList
          BookStatus.reading 10 0) true 0,
       RAction.openIt (mkBook "bbb".toList [] "B. Two".toList "epub".toList
          BookStatus.wantToRead 0 0) true 1,
       RAction.metaArrive ⟨"Alpha Real Title".toList, "Alpha Author".toList⟩]
      none).map (fun b => (b.id, b.title)) =
      some ("bbb".toList, "Alpha Real Title".toList) := by
  decide

/-- The streak updater never touches the completed-book counter. -/
theorem updateReadingStats_books (d : Nat) (g : ReadingGoal) :
    (updateReadingStats d g).totalBooksCompleted = g.totalBooksCompleted := by
  by_cases h : g.lastReadDate = some d <;> simp [updateReadingStats, h]

/-- Status rank is bounded by the rank of `finished`. -/
theorem statusRank_le_two (st : BookStatus) : statusRank st ≤ 2 := by
  cases st <;> decide

/-- A status of maximal rank is `finished`. -/
theorem statusRank_two_finished (st : BookStatus) (h : 2 ≤ statusRank st) :
    st = BookStatus.finished := by
  cases st <;> first | rfl | exact absurd h (by decide)

/-- One progress event keeps the book present, never lowers the status
rank, and bumps the completed-book counter exactly when it performs the
finished transition. -/
theorem stepEvent_inv (e : PEvent) (s : ReaderState) (b : Book) (hb : s.book = some b) :
    ∃ b', (stepEvent e s).book = some b' ∧
      statusRank b.status ≤ statusRank b'.status ∧
      (stepEvent e s).goal.totalBooksCompleted =
        s.goal.totalBooksCompleted +
          (if b.status ≠ BookStatus.finished ∧ b'.status = BookStatus.finished then 1 else 0) := by
  cases e with
  | pdf page total now =>
    by_cases hpg : b.currentPage = page
    · refine ⟨b, ?_, le_refl _, ?_⟩ <;>
        simp [stepEvent, handlePdfProgress, hb, hpg]
    · refine ⟨{ b with
          currentPage := page, totalPages := total, currentPageNumber := page,
          totalPageNumber := total, progress := jsRoundPct page total, lastReadAt := now },
        ?_, le_refl _, ?_⟩ <;>
        simp [stepEvent, handlePdfProgress, hb, hpg, updateReadingStats_books]
  | ebook p cfi pg tt nw =>
    by_cases hfin : 95 ≤ p ∧ b.status ≠ BookStatus.finished
    · refine ⟨{ b with
          progress := p, currentCfi := some cfi, currentPageNumber := pg,
          totalPageNumber := tt, lastReadAt := nw, status := BookStatus.finished },
        ?_, statusRank_le_two _, ?_⟩ <;>
        simp [stepEvent, handleEbookProgress, hb, hfin, updateReadingStats_books, hfin.2]
    · refine ⟨{ b with
          progress := p, currentCfi := some cfi, currentPageNumber := pg,
          totalPageNumber := tt, lastReadAt := nw },
        ?_, le_refl _, ?_⟩ <;>
        simp [stepEvent, handleEbookProgress, hb, hfin, updateReadingStats_books]
  | txt p nw =>
    by_cases hpr : b.progress = p
    · refine ⟨b, ?_, le_refl _, ?_⟩ <;>
        simp [stepEvent, handleTxtProgress, hb, hpr]
    · by_cases hfin : 95 ≤ p ∧ b.status ≠ BookStatus.finished
      · refine ⟨{ b with
            progress := p, lastReadAt := nw, status := BookStatus.finished },
          ?_, statusRank_le_two _, ?_⟩ <;>
          simp [stepEvent, handleTxtProgress, hb, hpr, hfin, updateReadingStats_books, hfin.2]
      · refine ⟨{ b with
            progress := p, lastReadAt := nw },
          ?_, le_refl _, ?_⟩ <;>
          simp [stepEvent, handleTxtProgress, hb, hpr, hfin, updateReadingStats_books]

/-- Unfolding of the event fold. -/
theorem runEvents_cons (e : PEvent) (es : List PEvent) (s : ReaderState) :
    runEvents (e :: es) s = runEvents es (stepEvent e s) := rfl

/-- The status rank never decreases along any event sequence. -/
theorem runEvents_inv (es : List PEvent) :
    ∀ (s : ReaderState) (b : Book), s.book = some b →
      ∃ b', (runEvents es s).book = some b' ∧ statusRank b.status ≤ statusRank b'.status := by
  induction es with
  | nil => exact fun s b hb => ⟨b, hb, le_refl _⟩
  | cons e es ih =>
    intro s b hb
    obtain ⟨b1, hb1, hr1, _⟩ := stepEvent_inv e s b hb
    obtain ⟨b', hb', hr'⟩ := ih (stepEvent e s) b1 hb1
    exact ⟨b', by simpa [runEvents_cons] using hb', le_trans hr1 hr'⟩

/-- A finished book stays finished through any event sequence, and the
completed-book counter does not move. -/
theorem runEvents_finished (es : List PEvent) :
    ∀ (s : ReaderState) (b : Book), s.book = some b → b.status = BookStatus.finished →
      ∃ b', (runEvents es s).book = some b' ∧ b'.status = BookStatus.finished ∧
        (runEvents es s).goal.totalBooksCompleted = s.goal.totalBooksCompleted := by
  induction es with
  | nil => exact fun s b hb hf => ⟨b, hb, hf, rfl⟩
  | cons e es ih =>
    intro s b hb hf
    obtain ⟨b1, hb1, hr1, hc1⟩ := stepEvent_inv e s b hb
    have hb1f : b1.status = BookStatus.finished := by
      apply statusRank_two_finished
      rw [hf] at hr1
      exact hr1
    have hcount : (stepEvent e s).goal.totalBooksCompleted = s.goal.totalBooksCompleted := by
      rw [hc1]
      simp [hf]
    obtain ⟨b', hb', hf', hc'⟩ := ih (stepEvent e s) b1 hb1 hb1f
    exact ⟨b', by simpa [runEvents_cons] using hb',
      hf', by rw [runEvents_cons, hc', hcount]⟩

/-- Counter law: starting from a not-yet-finished book, the global
completed-book counter ends exactly one higher when the final status is
`finished` and unchanged otherwise — the increment happens exactly once,
at the transition, no matter how percent fluctuates afterwards. -/
theorem runEvents_counter (es : List PEvent) :
    ∀ (s : ReaderState) (b : Book), s.book = some b → b.status ≠ BookStatus.finished →
      ∃ b', (runEvents es s).book = some b' ∧
        (runEvents es s).goal.totalBooksCompleted =
          s.goal.totalBooksCompleted + (if b'.status = BookStatus.finished then 1 else 0) := by
  induction es with
  | nil =>
    intro s b hb hnf
    exact ⟨b, hb, by simp [runEvents, hnf]⟩
  | cons e es ih =>
    intro s b hb hnf
    obtain ⟨b1, hb1, _, hc1⟩ := stepEvent_inv e s b hb
    by_cases h1f : b1.status = BookStatus.finished
    · obtain ⟨b', hb', hf', hc'⟩ := runEvents_finished es (stepEvent e s) b1 hb1 h1f
      refine ⟨b', by simpa [runEvents_cons] using hb', ?_⟩
      rw [runEvents_cons, hc', hc1]
      simp [hnf, h1f, hf']
    · obtain ⟨b', hb', hc'⟩ := ih (stepEvent e s) b1 hb1 h1f
      refine ⟨b', by simpa [runEvents_cons] using hb', ?_⟩
      rw [runEvents_cons, hc', hc1]
      simp [h1f]

/-- Recognizer for ebook progress events. -/
def isEbookEv : PEvent → Bool
  | .ebook _ _ _ _ _ => true
  | _ => false

/-- Events whose reported percent meets the completion threshold. -/
def completingEv : PEvent → Bool
  | .ebook p _ _ _ _ => 95 ≤ p
  | .txt p _ => 95 ≤ p
  | .pdf _ _ _ => false

/-- For ebook-only event sequences from a not-yet-finished book, the
status ends `finished` exactly when some event reported at least 95
percent. -/
theorem runEvents_ebook_iff (es : List PEvent) :
    ∀ (s : ReaderState) (b : Book), s.book = some b → b.status ≠ BookStatus.finished →
      (∀ e ∈ es, isEbookEv e = true) →
      ∃ b', (runEvents es s).book = some b' ∧
        (b'.status = BookStatus.finished ↔ es.any completingEv = true) := by
  induction es with
  | nil =>
    intro s b hb hnf _
    exact ⟨b, hb, by simp [hnf]⟩
  | cons e es ih =>
    intro s b hb hnf heb
    cases e with
    | pdf page total now =>
      exact absurd (heb (PEvent.pdf page total now) (by simp)) (by simp [isEbookEv])
    | txt p nw =>
      exact absurd (heb (PEvent.txt p nw) (by simp)) (by simp [isEbookEv])
    | ebook p cfi pg tt nw =>
      by_cases h95 : 95 ≤ p
      · have hb1 : (stepEvent (PEvent.ebook p cfi pg tt nw) s).book = some { b with
            progress := p, currentCfi := some cfi, currentPageNumber := pg,
            totalPageNumber := tt, lastReadAt := nw, status := BookStatus.finished } := by
          simp [stepEvent, handleEbookProgress, hb, h95, hnf]
        obtain ⟨b', hb', hf', _⟩ :=
          runEvents_finished es (stepEvent (PEvent.ebook p cfi pg tt nw) s) _ hb1 rfl
        refine ⟨b', by simpa [runEvents_cons] using hb', ?_⟩
        simp [hf', List.any_cons, completingEv, h95]
      · have hb1 : (stepEvent (PEvent.ebook p cfi pg tt nw) s).book = some { b with
            progress := p, currentCfi := some cfi, currentPageNumber := pg,
            totalPageNumber := tt, lastReadAt := nw } := by
          simp [stepEvent, handleEbookProgress, hb, h95]
        obtain ⟨b', hb', hiff⟩ := ih (stepEvent (PEvent.ebook p cfi pg tt nw) s) _ hb1
          (by simpa using hnf) (fun x hx => heb x (by simp [hx]))
        refine ⟨b', by simpa [runEvents_cons] using hb', ?_⟩
        rw [hiff]
        simp [List.any_cons, completingEv, h95]

/-- C1 amended: starting from a not-yet-finished open book, (i) for any
sequence of progress events (any formats) the global completed-book
counter ends exactly `+1` when the final status is `finished` and
unchanged otherwise, so the transition and the increment happen at most
once per book even when percent fluctuates above and below 95; (ii) for
EPUB progress events the status ends `finished` exactly when some event
reported at least 95 percent; (iii) a TXT progress event reporting at
least 95 percent performs the transition and the increment provided its
percent differs from the book's stored percent (the TXT handler ignores
events reporting an unchanged percent); but (iv) the PDF progress
handler never changes the status and never touches the counter, so the
transition does not hold for the PDF handler. -/
theorem completion_once_c1 (es : List PEvent) (b : Book) (g : ReadingGoal)
    (hnf : b.status ≠ BookStatus.finished) :
    (∃ b', (runEvents es ⟨some b, g⟩).book = some b' ∧
      (runEvents es ⟨some b, g⟩).goal.totalBooksCompleted =
        g.totalBooksCompleted + (if b'.status = BookStatus.finished then 1 else 0)) ∧
    ((∀ e ∈ es, isEbookEv e = true) →
      ∃ b', (runEvents es ⟨some b, g⟩).book = some b' ∧
        (b'.status = BookStatus.finished ↔ es.any completingEv = true)) ∧
    (∀ (p nw : Nat) (s0 : ReaderState) (b0 : Book), s0.book = some b0 →
      b0.status ≠ BookStatus.finished → b0.progress ≠ p → 95 ≤ p →
      (handleTxtProgress p nw s0).book = some { b0 with
        progress := p, lastReadAt := nw, status := BookStatus.finished } ∧
      (handleTxtProgress p nw s0).goal.totalBooksCompleted =
        s0.goal.totalBooksCompleted + 1) ∧
    (∀ (page total now : Nat) (s0 : ReaderState),
      (handlePdfProgress page total now s0).book.map Book.status = s0.book.map Book.status ∧
      (handlePdfProgress page total now s0).goal.totalBooksCompleted =
        s0.goal.totalBooksCompleted) := by
  refine ⟨runEvents_counter es ⟨some b, g⟩ b rfl hnf,
    fun heb => runEvents_ebook_iff es ⟨some b, g⟩ b rfl hnf heb, ?_, ?_⟩
  · intro p nw s0 b0 hb0 hnf0 hpr h95
    constructor <;>
      simp [handleTxtProgress, hb0, hpr, h95, hnf0, updateReadingStats_books]
  · intro page total now s0
    rcases hb0 : s0.book with _ | b0
    · constructor <;> simp [handlePdfProgress, hb0]
    · by_cases hpg : b0.currentPage = page <;>
        constructor <;>
        simp [handlePdfProgress, hb0, hpg, updateReadingStats_books]

/-- C1 counterexample: the claim fails for the PDF handler.  A PDF
progress event reporting page 96 of 100 (96 percent, above the
threshold) on a book whose status is `reading` leaves the status
`reading` and the completed-book counter untouched. -/
theorem completion_once_c1_counterexample :
    jsRoundPct 96 100 = 96 ∧
    (handlePdfProgress 96 100 0
        ⟨some (mkBook "p".toList "T".toList "A".toList "pdf".toList BookStatus.reading 50 1),
         defaultGoal⟩).book.map Book.status = some BookStatus.reading ∧
    (handlePdfProgress 96 100 0
        ⟨some (mkBook "p".toList "T".toList "A".toList "pdf".toList BookStatus.reading 50 1),
         defaultGoal⟩).goal.totalBooksCompleted = 0 := by
  decide

/-- C1 witness: the specification's scenario — progress reaches 96
percent for a reading EPUB book, followed by events at 97, 94 and 98. -/
theorem completion_once_c1_witness :
    ((mkBook "e".toList "T".toList "A".toList "epub".toList BookStatus.reading 50 0).status ≠
      BookStatus.finished) ∧
    ((∃ b', (runEvents
        [PEvent.ebook 96 [] 96 100 0, PEvent.ebook 97 [] 97 100 1,
         PEvent.ebook 94 [] 94 100 2, PEvent.ebook 98 [] 98 100 3]
        ⟨some (mkBook "e".toList "T".toList "A".toList "epub".toList BookStatus.reading 50 0),
         defaultGoal⟩).book = some b' ∧
      (runEvents
        [PEvent.ebook 96 [] 96 100 0, PEvent.ebook 97 [] 97 100 1,
         PEvent.ebook 94 [] 94 100 2, PEvent.ebook 98 [] 98 100 3]
        ⟨some (mkBook "e".toList "T".toList "A".toList "epub".toList BookStatus.reading 50 0),
         defaultGoal⟩).goal.totalBooksCompleted =
        defaultGoal.totalBooksCompleted + (if b'.status = BookStatus.finished then 1 else 0)) ∧
    ((∀ e ∈ [PEvent.ebook 96 [] 96 100 0, PEvent.ebook 97 [] 97 100 1,
         PEvent.ebook 94 [] 94 100 2, PEvent.ebook 98 [] 98 100 3], isEbookEv e = true) →
      ∃ b', (runEvents
        [PEvent.ebook 96 [] 96 100 0, PEvent.ebook 97 [] 97 100 1,
         PEvent.ebook 94 [] 94 100 2, PEvent.ebook 98 [] 98 100 3]
        ⟨some (mkBook "e".toList "T".toList "A".toList "epub".toList BookStatus.reading 50 0),
         defaultGoal⟩).book = some b' ∧
        (b'.status = BookStatus.finished ↔
          ([PEvent.ebook 96 [] 96 100 0, PEvent.ebook 97 [] 97 100 1,
            PEvent.ebook 94 [] 94 100 2, PEvent.ebook 98 [] 98 100 3].any completingEv = true))) ∧
    (∀ (p nw : Nat) (s0 : ReaderState) (b0 : Book), s0.book = some b0 →
      b0.status ≠ BookStatus.finished → b0.progress ≠ p → 95 ≤ p →
      (handleTxtProgress p nw s0).book = some { b0 with
        progress := p, lastReadAt := nw, status := BookStatus.finished } ∧
      (handleTxtProgress p nw s0).goal.totalBooksCompleted =
        s0.goal.totalBooksCompleted + 1) ∧
    (∀ (page total now : Nat) (s0 : ReaderState),
      (handlePdfProgress page total now s0).book.map Book.status = s0.book.map Book.status ∧
      (handlePdfProgress page total now s0).goal.totalBooksCompleted =
        s0.goal.totalBooksCompleted)) :=
  ⟨by decide,
    completion_once_c1
      [PEvent.ebook 96 [] 96 100 0, PEvent.ebook 97 [] 97 100 1,
       PEvent.ebook 94 [] 94 100 2, PEvent.ebook 98 [] 98 100 3]
      (mkBook "e".toList "T".toList "A".toList "epub".toList BookStatus.reading 50 0)
      defaultGoal (by decide)⟩

/-- C2 amended: across any sequence of progress events, a book's status
never moves backward — `finished` never reverts and `reading` never
becomes `want-to-read`; however, opening a book (`loadBook`) sets the
status to `reading` unconditionally, which does revert a `finished`
book (see the counterexample). -/
theorem monotonic_status_c2 (es : List PEvent) (s : ReaderState) (b : Book)
    (hb : s.book = some b) :
    ∃ b', (runEvents es s).book = some b' ∧
      statusRank b.status ≤ statusRank b'.status ∧
      (b.status = BookStatus.finished → b'.status = BookStatus.finished) ∧
      (b.status ≠ BookStatus.wantToRead → b'.status ≠ BookStatus.wantToRead) := by
  obtain ⟨b', hb', hr⟩ := runEvents_inv es s b hb
  refine ⟨b', hb', hr, ?_, ?_⟩
  · intro hf
    apply statusRank_two_finished
    rw [hf] at hr
    exact hr
  · intro hw hw'
    rw [hw'] at hr
    cases hst : b.status
    · exact hw hst
    · rw [hst] at hr
      exact absurd hr (by decide)
    · rw [hst] at hr
      exact absurd hr (by decide)

/-- C2 counterexample: opening a `finished` book reverts its status.
`loadBook` sets `status = 'reading'` unconditionally, so a
system-initiated open of a finished book transitions it backward to
`reading`. -/
theorem monotonic_status_c2_counterexample :
    (loadBook
        (some (mkBook "f".toList "T".toList "A".toList "pdf".toList BookStatus.finished 100 1))
        true 5).map Book.status = some BookStatus.reading := by
  decide

/-- C2 witness: a finished book stays finished through a later
low-percent EPUB progress event. -/
theorem monotonic_status_c2_witness :
    ((⟨some (mkBook "f".toList "T".toList "A".toList "epub".toList BookStatus.finished 100 1),
        defaultGoal⟩ : ReaderState).book =
      some (mkBook "f".toList "T".toList "A".toList "epub".toList BookStatus.finished 100 1)) ∧
    (∃ b', (runEvents [PEvent.ebook 40 [] 40 100 9]
        ⟨some (mkBook "f".toList "T".toList "A".toList "epub".toList BookStatus.finished 100 1),
         defaultGoal⟩).book = some b' ∧
      statusRank (mkBook "f".toList "T".toList "A".toList "epub".toList
        BookStatus.finished 100 1).status ≤ statusRank b'.status ∧
      ((mkBook "f".toList "T".toList "A".toList "epub".toList
          BookStatus.finished 100 1).status = BookStatus.finished →
        b'.status = BookStatus.finished) ∧
      ((mkBook "f".toList "T".toList "A".toList "epub".toList
          BookStatus.finished 100 1).status ≠ BookStatus.wantToRead →
        b'.status ≠ BookStatus.wantToRead)) :=
  ⟨rfl, monotonic_status_c2 [PEvent.ebook 40 [] 40 100 9]
    ⟨some (mkBook "f".toList "T".toList "A".toList "epub".toList BookStatus.finished 100 1),
     defaultGoal⟩
    (mkBook "f".toList "T".toList "A".toList "epub".toList BookStatus.finished 100 1) rfl⟩

end Sisu

